import Mathlib

/-!
Shallow embedding of the TailorIt backend's filesystem core
(app/services/filesystem_service.py, app/database/supabase/filesystem.py,
app/database/supabase_storage/__init__.py, app/api/endpoints/files.py,
app/utils/decorators.py) and proofs about the frozen claims.

Modelling conventions:
  * UUIDs are modelled as `Nat`; owner identities as `String`.  The only
    operations the source performs on them are equality comparison and
    rendering into storage-path strings, which the model mirrors.
  * A metadata table is a list of rows; Supabase `eq`/`is_("...", null)`
    filters become list filters.  Row insertion assigns a fresh id from a
    counter carried in the store state (modelling DB id generation).
  * Exceptions become values of an error type `Err`; a raised exception in
    the Python source is an `Except.error` result paired with the state the
    process left behind (Python state mutations survive exceptions).
  * `created_at` / `updated_at` columns are omitted: no claim and no piece
    of the translated logic reads them.
  * Transport/store faults ("simulated store fault" in the spec) are
    injected through an explicit `Faults` record read at the call sites
    where the Python client library could raise.
-/

namespace TailorIt

/-- Modelled from the spec: the module `app/utils/exceptions.py` is not part
of the source snapshot (only its importers are).  The spec's section 7 error
taxonomy and the constructor calls in the sources
(`DatabaseError(message, details={...})`, `NotFoundError(message, details)`,
`StorageError(message, details)`) determine its shape: three exception
classes, each carrying a message and a string-keyed details dict. -/
inductive Err where
  | databaseError (message : String) (details : List (String × String))
  | notFoundError (message : String) (details : List (String × String))
  | storageError (message : String) (details : List (String × String))
deriving Repr, DecidableEq

/-- Row of the `folders` table (app/models/folder.py: id, user_id, name,
parent_id; timestamps omitted, see module header). -/
structure FolderRow where
  id : Nat
  user_id : String
  name : String
  parent_id : Option Nat
deriving Repr, DecidableEq

/-- Row of the `files` table (app/models/file.py: id, user_id, name,
folder_id, storage_path; timestamps omitted). -/
structure FileRow where
  id : Nat
  user_id : String
  name : String
  folder_id : Option Nat
  storage_path : String
deriving Repr, DecidableEq

/-- State of the relational metadata store: the two tables plus id
counters standing for the database's id generation. -/
structure MetaDB where
  folders : List FolderRow
  files : List FileRow
  nextFolderId : Nat := 0
  nextFileId : Nat := 0
deriving Repr, DecidableEq

/-- Blob-store bucket state: the set of stored objects as an association
list from storage path to content bytes. -/
abbrev Bucket : Type := List (String × List Nat)

namespace Store

/-- SupabaseFilesystem.get_folders: select folders with
`eq("user_id", user_id)` and, for the parent, `is_("parent_id", None)` when
`parent_id is None`, else `eq("parent_id", str(parent_id))`. -/
def get_folders (db : MetaDB) (user_id : String) (parent_id : Option Nat) :
    List FolderRow :=
  let q := db.folders.filter (fun r => r.user_id == user_id)
  match parent_id with
  | none => q.filter (fun r => r.parent_id == none)
  | some p => q.filter (fun r => r.parent_id == some p)

/-- SupabaseFilesystem.folder_exists: filters by user and name, then by
`eq("parent_id", ...)` when `parent_id` is truthy else `is_("parent_id",
"null")`, and tests `len(result.data) > 0`. -/
def folder_exists (db : MetaDB) (user_id : String) (name : String)
    (parent_id : Option Nat) : Bool :=
  let q := db.folders.filter (fun r => r.user_id == user_id && r.name == name)
  let q2 := match parent_id with
    | some p => q.filter (fun (r : FolderRow) => r.parent_id == some p)
    | none => q.filter (fun (r : FolderRow) => r.parent_id == none)
  q2.length > 0

/-- SupabaseFilesystem.get_files: filters by user, and adds the
`eq("folder_id", str(folder_id))` filter only when `folder_id` is truthy —
when it is None NO folder filter is applied at all (the full per-user file
list is returned). -/
def get_files (db : MetaDB) (user_id : String) (folder_id : Option Nat) :
    List FileRow :=
  let q := db.files.filter (fun r => r.user_id == user_id)
  match folder_id with
  | some fid => q.filter (fun r => r.folder_id == some fid)
  | none => q

/-- SupabaseFilesystem.file_exists: like folder_exists but over files. -/
def file_exists (db : MetaDB) (user_id : String) (name : String)
    (folder_id : Option Nat) : Bool :=
  let q := db.files.filter (fun r => r.user_id == user_id && r.name == name)
  let q2 := match folder_id with
    | some fid => q.filter (fun (r : FileRow) => r.folder_id == some fid)
    | none => q.filter (fun (r : FileRow) => r.folder_id == none)
  q2.length > 0

/-- SupabaseFilesystem.get_file: select by id and user,
`result.data[0] if result.data else None`. -/
def get_file (db : MetaDB) (file_id : Nat) (user_id : String) :
    Option FileRow :=
  (db.files.filter (fun r => r.id == file_id && r.user_id == user_id)).head?

/-- SupabaseFilesystem.create_folder: insert the row; the database assigns
the fresh id (modelled with the `nextFolderId` counter) and the inserted row
is returned. -/
def create_folder (db : MetaDB) (user_id : String) (name : String)
    (parent_id : Option Nat) : FolderRow × MetaDB :=
  let row : FolderRow :=
    { id := db.nextFolderId, user_id := user_id, name := name,
      parent_id := parent_id }
  (row, { db with folders := db.folders ++ [row],
                  nextFolderId := db.nextFolderId + 1 })

/-- SupabaseFilesystem.create_file: insert the row (id assigned by the
database, modelled with `nextFileId`); the inserted row is returned. -/
def create_file (db : MetaDB) (user_id : String) (name : String)
    (folder_id : Option Nat) (storage_path : String) : FileRow × MetaDB :=
  let row : FileRow :=
    { id := db.nextFileId, user_id := user_id, name := name,
      folder_id := folder_id, storage_path := storage_path }
  (row, { db with files := db.files ++ [row],
                  nextFileId := db.nextFileId + 1 })

/-- Field patch for a file row, modelling
`file_update.model_dump(exclude_unset=True)` plus the optional
`storage_path` entry the service adds: `none` means the key is absent from
the update dict. -/
structure FileUpdateData where
  name : Option String := none
  folder_id : Option (Option Nat) := none
  storage_path : Option String := none
deriving Repr, DecidableEq

/-- Application of an update dict to a row: present keys overwrite the
row's columns. -/
def applyFileUpdate (u : FileUpdateData) (r : FileRow) : FileRow :=
  { r with name := u.name.getD r.name,
           folder_id := u.folder_id.getD r.folder_id,
           storage_path := u.storage_path.getD r.storage_path }

/-- SupabaseFilesystem.update_file: update all rows matching id and user,
return `result.data[0] if result.data else None`. -/
def update_file (db : MetaDB) (file_id : Nat) (user_id : String)
    (u : FileUpdateData) : Option FileRow × MetaDB :=
  let hit := fun (r : FileRow) => r.id == file_id && r.user_id == user_id
  let updated := (db.files.filter hit).map (applyFileUpdate u)
  (updated.head?,
   { db with files := db.files.map (fun r => if hit r then applyFileUpdate u r else r) })

/-- SupabaseFilesystem.delete_file: delete all rows matching id and user,
return `result.data[0] if result.data else None`. -/
def delete_file (db : MetaDB) (file_id : Nat) (user_id : String) :
    Option FileRow × MetaDB :=
  let hit := fun (r : FileRow) => r.id == file_id && r.user_id == user_id
  ((db.files.filter hit).head?,
   { db with files := db.files.filter (fun r => !(hit r)) })

end Store

/-- Character-level rendering of `os.path.basename`: the part of the path
after the last slash. -/
def basenameCl (p : List Char) : List Char :=
  (p.reverse.takeWhile (fun c => c != '/')).reverse

/-- Character-level rendering of `os.path.splitext(p)[1]`: the suffix of
the basename starting at its last dot, except that when every character
before that dot (within the basename) is itself a dot the extension is
empty — CPython treats such leading dots as part of the root, so
`splitext(".tex") == (".tex", "")`. -/
def splitextExtCl (p : List Char) : List Char :=
  if ((basenameCl p).reverse.takeWhile (fun c => c != '.')).length ==
      (basenameCl p).reverse.length then []
  else if ((basenameCl p).reverse.drop
      (((basenameCl p).reverse.takeWhile (fun c => c != '.')).length + 1)).all
      (fun c => c == '.') then []
  else '.' :: ((basenameCl p).reverse.takeWhile (fun c => c != '.')).reverse

/-- The source's `os.path.splitext(file_path)[1].lower()`. -/
def file_extension (p : String) : String :=
  String.mk ((splitextExtCl p.toList).map Char.toLower)

/-- The storage path computed in SupabaseStorage.upload_file:
`f"{user_id}/"`, then `f"{folder_id}/"` if the folder id is truthy, then
`os.path.basename(file_path)`. -/
def storage_path_of (user_id : String) (folder_id : Option Nat)
    (file_path : String) : String :=
  user_id ++ "/" ++
    (match folder_id with
     | some f => toString f ++ "/"
     | none => "") ++
    String.mk (basenameCl file_path.toList)

/-- The endpoint-level check `filename.lower().endswith(".tex")`
(app/api/endpoints/files.py). -/
def endswith_tex_ci (s : String) : Bool :=
  [ '.', 't', 'e', 'x' ].isSuffixOf (s.toList.map Char.toLower)

namespace Storage

/-- SupabaseStorage._file_exists_in_bucket: whether an object is already
stored under `storage_path` (the source lists the bucket at the path and
compares basenames; the model reads it as membership of the path in the
bucket, which is what the check is written to decide). -/
def file_exists_in_bucket (bucket : Bucket) (storage_path : String) : Bool :=
  bucket.any (fun e => e.1 == storage_path)

/-- SupabaseStorage.upload_file: reject non-`.tex` extensions before any
write, compute the storage path, reject a path already present in the
bucket (DUPLICATE_FILE), otherwise store the object and return its path.
The bucket component of the result is the bucket after the call (unchanged
on every error path: no write happens). -/
def upload_file (bucket : Bucket) (file_path : String)
    (file_content : List Nat) (user_id : String) (folder_id : Option Nat) :
    Except Err String × Bucket :=
  if file_extension file_path != ".tex" then
    (.error (.storageError "Invalid file type"
        [("error", "Only .tex files are allowed")]), bucket)
  else
    let sp := storage_path_of user_id folder_id file_path
    if file_exists_in_bucket bucket sp then
      (.error (.storageError "File with the same name already exists in this location"
          [("error", "DUPLICATE_FILE")]), bucket)
    else
      (.ok sp, (sp, file_content) :: bucket)

/-- SupabaseStorage.delete_file: `remove([storage_path])` drops the object
stored under the path. -/
def delete_file (bucket : Bucket) (storage_path : String) : Bucket :=
  bucket.filter (fun e => e.1 != storage_path)

end Storage

/-- Injected transport/store faults, standing for the places where the
Python client library could raise inside an otherwise successful control
flow: a failing `files` insert (the spec's "simulated store fault" on the
metadata insert) and a failing blob deletion.  `fault_msg` is the stringified
underlying exception. -/
structure Faults where
  create_file_meta_fails : Bool := false
  delete_blob_fails : Bool := false
  fault_msg : String := "store fault"
deriving Repr, DecidableEq

/-- Combined state of the two stores. -/
structure World where
  meta : MetaDB
  bucket : Bucket
deriving Repr, DecidableEq

/-- Value produced by `db_error_handler` (app/utils/decorators.py) when a
synchronous repository method lets a non-DatabaseError, non-NotFoundError
exception escape: `DatabaseError(f"Database operation failed in
{func.__name__}", details={"error": str(e)})`. -/
def genericDbFailure (func_name : String) (cause : String) : Err :=
  .databaseError ("Database operation failed in " ++ func_name)
    [("error", cause)]

namespace Service

/-- FilesystemService.create_folder: duplicate check through
folder_exists, DUPLICATE_FOLDER DatabaseError on a hit, otherwise insert
with the owner attached and return the created row.  An error leaves the
store untouched. -/
def create_folder (db : MetaDB) (name : String) (parent_id : Option Nat)
    (user_id : String) : Except Err FolderRow × MetaDB :=
  if Store.folder_exists db user_id name parent_id then
    (.error (.databaseError "Folder with the same name already exists in this location"
        [("error", "DUPLICATE_FOLDER")]), db)
  else
    let (row, db') := Store.create_folder db user_id name parent_id
    (.ok row, db')

/-- FilesystemService.get_file: repository lookup by id and owner;
NotFoundError (with the file id in the details) when no row matches. -/
def get_file (db : MetaDB) (file_id : Nat) (user_id : String) :
    Except Err FileRow :=
  match Store.get_file db file_id user_id with
  | none => .error (.notFoundError "File not found or unauthorized"
      [("file_id", toString file_id)])
  | some r => .ok r

/-- FilesystemService.create_file: duplicate check, then blob upload, then
metadata insert.  When the insert raises (injected fault) the synchronous
repository wrapper surfaces `genericDbFailure "create_file"`; the service
makes NO compensating blob delete, so the uploaded object stays in the
bucket.  (`db_error_handler` on the async service method itself wraps a
coroutine and never catches, so errors pass through unchanged.) -/
def create_file (w : World) (faults : Faults) (name : String)
    (folder_id : Option Nat) (user_id : String) (content : List Nat) :
    Except Err FileRow × World :=
  if Store.file_exists w.meta user_id name folder_id then
    (.error (.databaseError "File with the same name already exists in this folder"
        [("error", "DUPLICATE_FILE")]), w)
  else
    match Storage.upload_file w.bucket name content user_id folder_id with
    | (.error e, bucket') => (.error e, { w with bucket := bucket' })
    | (.ok sp, bucket') =>
      if faults.create_file_meta_fails then
        (.error (genericDbFailure "create_file" faults.fault_msg),
         { w with bucket := bucket' })
      else
        let (row, meta') := Store.create_file w.meta user_id name folder_id sp
        (.ok row, { meta := meta', bucket := bucket' })

/-- FilesystemService.update_file: load the current row (NotFound when
absent); when new content is supplied re-upload it under the CURRENT stored
name and folder id, adding the returned storage path to the update dict;
then apply the metadata patch through the repository. -/
def update_file (w : World) (file_id : Nat) (upd : Store.FileUpdateData)
    (user_id : String) (content : Option (List Nat)) :
    Except Err FileRow × World :=
  match get_file w.meta file_id user_id with
  | .error e => (.error e, w)
  | .ok current =>
    let uploaded : Except Err (Option String) × Bucket :=
      match content with
      | none => (.ok none, w.bucket)
      | some bytes =>
        match Storage.upload_file w.bucket current.name bytes user_id
            current.folder_id with
        | (.error e, bucket') => (.error e, bucket')
        | (.ok sp, bucket') => (.ok (some sp), bucket')
    match uploaded with
    | (.error e, bucket') => (.error e, { w with bucket := bucket' })
    | (.ok sp?, bucket') =>
      let (res, meta') := Store.update_file w.meta file_id user_id
        { upd with storage_path := sp? }
      match res with
      | none => (.error (.notFoundError "File not found or unauthorized"
          [("file_id", toString file_id)]),
          { meta := meta', bucket := bucket' })
      | some row => (.ok row, { meta := meta', bucket := bucket' })

/-- FilesystemService.delete_file: load the row (NotFound when absent),
delete the blob (a failure there — injected fault — propagates and stops
the sequence before the metadata delete), then delete the metadata row. -/
def delete_file (w : World) (faults : Faults) (file_id : Nat)
    (user_id : String) : Except Err FileRow × World :=
  match get_file w.meta file_id user_id with
  | .error e => (.error e, w)
  | .ok file =>
    if faults.delete_blob_fails then
      (.error (.storageError "Error deleting file"
          [("error", faults.fault_msg)]), w)
    else
      let bucket' := Storage.delete_file w.bucket file.storage_path
      let (res, meta') := Store.delete_file w.meta file_id user_id
      match res with
      | none => (.error (.notFoundError "File not found or unauthorized"
          [("file_id", toString file_id)]),
          { meta := meta', bucket := bucket' })
      | some row => (.ok row, { meta := meta', bucket := bucket' })

/-- Loop body of FilesystemService.get_all_folders_recursive: a FIFO queue
of parent markers starting at `[None]`; each step pops a marker, fetches
its direct children, appends them to the flat accumulator and enqueues
their ids.  The Python loop runs unboundedly; the model indexes it by fuel
(one unit per pop) and returns `none` when the fuel runs out before the
queue empties — so a run of the source that terminates is exactly a fuel
for which the model returns `some`. -/
def bfs_aux (db : MetaDB) (user_id : String) :
    Nat → List FolderRow → List (Option Nat) → Option (List FolderRow)
  | 0, _, _ => none
  | _ + 1, acc, [] => some acc
  | fuel + 1, acc, q :: qs =>
    let children := Store.get_folders db user_id q
    bfs_aux db user_id fuel (acc ++ children)
      (qs ++ children.map (fun c => some c.id))

/-- FilesystemService.get_all_folders_recursive, fuel-indexed. -/
def get_all_folders_recursive (db : MetaDB) (user_id : String)
    (fuel : Nat) : Option (List FolderRow) :=
  bfs_aux db user_id fuel [] [none]

end Service

/-- Node of the rebuilt tree: the folder row together with its bucketed
files and nested subfolders (`{**folder.model_dump(), "files": ...,
"subfolders": [...]}` in the source). -/
inductive FolderNode where
  | node (folder : FolderRow) (files : List FileRow)
      (subfolders : List FolderNode)

/-- The derived FilesystemTree view: top-level folder nodes plus the
root-level files. -/
structure Tree where
  folders : List FolderNode
  files : List FileRow

/-- The `files_by_folder` bucketing of get_filesystem_tree: files whose
`folder_id` equals the key, in all_files order (`none` is the "root"
bucket). -/
def files_for (all_files : List FileRow) (key : Option Nat) : List FileRow :=
  all_files.filter (fun f => f.folder_id == key)

/-- Functional rendering of the in-place linking loop of
get_filesystem_tree.  The Python code stores one mutable dict per folder id
and appends each folder's dict into its parent's "subfolders" (aliased, so
later appends deepen nodes already linked into the tree); since the flat
list is in breadth-first order every parent is linked before its children,
and the fixed point is: each folder's node carries the nodes of exactly the
folders of the flat list whose `parent_id` is its id, in flat-list order.
The recursion is fuel-indexed (fuel `all_folders.length` in `assemble_tree`
covers every parent chain expressible without repeated ids; the dict-backed
source and this rendering agree whenever folder ids are distinct, which
every theorem below either assumes or instantiates). -/
def build_node (all_folders : List FolderRow) (all_files : List FileRow) :
    Nat → FolderRow → FolderNode
  | 0, f => .node f (files_for all_files (some f.id)) []
  | fuel + 1, f =>
    .node f (files_for all_files (some f.id))
      ((all_folders.filter (fun c => c.parent_id == some f.id)).map
        (build_node all_folders all_files fuel))

/-- Tree assembly from the flat folder list and the owner's full file
list: top-level folders are those with falsy `parent_id`, in flat-list
order; top-level files are the "root" bucket. -/
def assemble_tree (all_folders : List FolderRow)
    (all_files : List FileRow) : Tree :=
  { folders := (all_folders.filter (fun f => f.parent_id == none)).map
      (build_node all_folders all_files all_folders.length)
  , files := files_for all_files none }

/-- FilesystemService.get_filesystem_tree: flat breadth-first folder list
(fuel-indexed, see bfs_aux), one get_files call for ALL of the owner's
files (folder_id defaulting to None — the unfiltered variant), bucketing,
and linking. -/
def Service.get_filesystem_tree (db : MetaDB) (user_id : String)
    (fuel : Nat) : Option Tree :=
  match Service.get_all_folders_recursive db user_id fuel with
  | none => none
  | some all_folders =>
    some (assemble_tree all_folders (Store.get_files db user_id none))

/-- create_file of the legacy endpoint app/api/endpoints/files.py (the
router mounted by app/main.py): its own case-insensitive `.endswith(".tex")`
pre-check, `name or filename` resolution, blob upload, then
`postgres.create_file`; when the metadata step raises, the endpoint
attempts to delete the just-uploaded blob (a failing cleanup — second
injected fault — is logged and does not mask the error) and surfaces
`DatabaseError("Error creating file in database", ...)`.  The
metadata-level duplicate check inside SupabasePostgres.create_file also
lands in that handler. -/
def Endpoint.create_file (w : World) (faults : Faults) (filename : String)
    (form_name : Option String) (folder_id : Option Nat) (user_id : String)
    (content : List Nat) : Except Err FileRow × World :=
  if !(endswith_tex_ci filename) then
    (.error (.storageError "Invalid file type"
        [("error", "Only .tex files are allowed")]), w)
  else
    let file_name := match form_name with
      | some n => if n == "" then filename else n
      | none => filename
    match Storage.upload_file w.bucket file_name content user_id folder_id with
    | (.error e, bucket') => (.error e, { w with bucket := bucket' })
    | (.ok sp, bucket') =>
      if sp == "" then
        (.error (.storageError "Failed to get storage path after upload" []),
         { w with bucket := bucket' })
      else
        let metaFailed : Option String :=
          if faults.create_file_meta_fails then some faults.fault_msg
          else if Store.file_exists w.meta user_id file_name folder_id then
            some "File with the same name already exists in this folder"
          else none
        match metaFailed with
        | some cause =>
          let bucket2 := if faults.delete_blob_fails then bucket'
            else Storage.delete_file bucket' sp
          (.error (.databaseError "Error creating file in database"
              [("error", cause)]), { w with bucket := bucket2 })
        | none =>
          let (row, meta') := Store.create_file w.meta user_id file_name
            folder_id sp
          (.ok row, { meta := meta', bucket := bucket' })

/-! Analysis vocabulary for the breadth-first traversal: the level
decomposition of the queue, reachability from the synthetic null root, and
the child-step relation on folder ids. -/

/-- The owner's folder rows (every `folders` query filters on the owner
first). -/
def userFolders (db : MetaDB) (user_id : String) : List FolderRow :=
  db.folders.filter (fun r => r.user_id == user_id)

/-- Ids of the owner's folder rows. -/
def idsOf (db : MetaDB) (user_id : String) : List Nat :=
  (userFolders db user_id).map (fun r => r.id)

/-- The queue contents of the traversal, level by level: level 0 is the
synthetic root marker `[none]`, and level n+1 holds the ids of the children
fetched while draining level n, in order. -/
def levelQ (db : MetaDB) (user_id : String) : Nat → List (Option Nat)
  | 0 => [none]
  | n + 1 =>
    ((levelQ db user_id n).flatMap (fun q => Store.get_folders db user_id q)).map
      (fun r => some r.id)

/-- The folder rows appended to the flat list while draining level n of the
queue. -/
def levelRows (db : MetaDB) (user_id : String) (n : Nat) : List FolderRow :=
  (levelQ db user_id n).flatMap (fun q => Store.get_folders db user_id q)

/-- Child step on folder ids: `stepRel x y` holds when one of the owner's
rows has id `y` and parent `x`. -/
def stepRel (db : MetaDB) (user_id : String) (x y : Nat) : Prop :=
  ∃ r ∈ userFolders db user_id, r.parent_id = some x ∧ r.id = y

/-- Child step on queue markers: from marker `q` the traversal enqueues
`some r.id` for every child row `r` it fetches for `q`. -/
def stepQ (db : MetaDB) (user_id : String) (q c : Option Nat) : Prop :=
  ∃ r ∈ Store.get_folders db user_id q, c = some r.id

/-- Queue markers the traversal dequeues: the null root, and the id of
every child row fetched for an already dequeued marker. -/
inductive Dequeued (db : MetaDB) (user_id : String) : Option Nat → Prop where
  | root : Dequeued db user_id none
  | child (q : Option Nat) (r : FolderRow) :
      Dequeued db user_id q → r ∈ Store.get_folders db user_id q →
      Dequeued db user_id (some r.id)

/-- A folder row the traversal reaches from the null root: one of the
owner's rows whose parent marker gets dequeued. -/
def ReachableRow (db : MetaDB) (user_id : String) (r : FolderRow) : Prop :=
  r ∈ userFolders db user_id ∧ Dequeued db user_id r.parent_id

/-- The owner's folder rows form a forest: row ids are pairwise distinct
(they are primary keys) and the parent links carry no cycle. -/
def IsForest (db : MetaDB) (user_id : String) : Prop :=
  (idsOf db user_id).Nodup ∧
    ∀ x : Nat, ¬ Relation.TransGen (stepRel db user_id) x x

/-- From marker `q` the traversal can go on to reach a cycle of the child
step relation. -/
def ReachesCycleFrom (db : MetaDB) (user_id : String) (q : Option Nat) : Prop :=
  ∃ z : Nat, Relation.ReflTransGen (stepQ db user_id) q (some z) ∧
    Relation.TransGen (stepRel db user_id) z z

mutual

/-- Whether a folder row occurs (as the folder of a node) anywhere in a
rebuilt tree node. -/
def node_contains (r : FolderRow) : FolderNode → Bool
  | .node f _ subs => f == r || nodes_contain r subs

/-- Whether a folder row occurs anywhere in a list of rebuilt nodes. -/
def nodes_contain (r : FolderRow) : List FolderNode → Bool
  | [] => false
  | n :: ns => node_contains r n || nodes_contain r ns

end

/-- Whether a folder row occurs anywhere in a rebuilt tree. -/
def tree_contains (t : Tree) (r : FolderRow) : Bool :=
  nodes_contain r t.folders

/-! Concrete fixtures used by the per-claim theorems and witnesses. -/

/-- Empty metadata store. -/
def fxDbEmpty : MetaDB := { folders := [], files := [] }

/-- Empty combined state. -/
def fxW0 : World := { meta := fxDbEmpty, bucket := [] }

/-- Fault set: the `files` metadata insert raises. -/
def fxFaultMeta : Faults := { create_file_meta_fails := true }

/-- Fault set: the blob deletion raises. -/
def fxFaultBlob : Faults := { delete_blob_fails := true }

/-- A stored `.tex` file row at the root of owner `u`. -/
def fxFileRow : FileRow :=
  { id := 1, user_id := "u", name := "doc.tex", folder_id := none,
    storage_path := "u/doc.tex" }

/-- State holding `fxFileRow` plus its blob. -/
def fxWFile : World :=
  { meta := { folders := [], files := [fxFileRow], nextFileId := 2 },
    bucket := [("u/doc.tex", [0])] }

/-- Store with one file that sits inside folder 7 (for the null-filter
counterexample). -/
def fxDb5 : MetaDB :=
  { folders := [],
    files := [{ id := 1, user_id := "u", name := "a.tex",
                folder_id := some 7, storage_path := "u/7/a.tex" }] }

/-- Store with one file owned by `B` (for the ownership-isolation
witness). -/
def fxDb8 : MetaDB :=
  { folders := [],
    files := [{ id := 1, user_id := "B", name := "doc.tex",
                folder_id := none, storage_path := "B/doc.tex" }] }

/-- The folders of the worked tree example: A and C at the root, B inside
A. -/
def fxFolderA : FolderRow := { id := 1, user_id := "u", name := "A", parent_id := none }

/-- Folder B, child of A. -/
def fxFolderB : FolderRow := { id := 2, user_id := "u", name := "B", parent_id := some 1 }

/-- Folder C at the root. -/
def fxFolderC : FolderRow := { id := 3, user_id := "u", name := "C", parent_id := none }

/-- File f1 inside A. -/
def fxFile1 : FileRow :=
  { id := 10, user_id := "u", name := "f1.tex", folder_id := some 1,
    storage_path := "u/1/f1.tex" }

/-- File f2 inside B. -/
def fxFile2 : FileRow :=
  { id := 11, user_id := "u", name := "f2.tex", folder_id := some 2,
    storage_path := "u/2/f2.tex" }

/-- File f3 at the root. -/
def fxFile3 : FileRow :=
  { id := 12, user_id := "u", name := "f3.tex", folder_id := none,
    storage_path := "u/f3.tex" }

/-- The metadata rows of the worked tree example. -/
def fxDb3 : MetaDB :=
  { folders := [fxFolderA, fxFolderB, fxFolderC],
    files := [fxFile1, fxFile2, fxFile3],
    nextFolderId := 4, nextFileId := 13 }

/-- The expected rebuilt tree of the worked example. -/
def fxTree3 : Tree :=
  { folders :=
      [ .node fxFolderA [fxFile1] [ .node fxFolderB [fxFile2] [] ],
        .node fxFolderC [] [] ],
    files := [fxFile3] }

/-- Store whose rows contain a reachable parent-link cycle: two rows share
id 1, one at the root and one that is its own parent. -/
def fxDbCycle : MetaDB :=
  { folders :=
      [ { id := 1, user_id := "u", name := "A", parent_id := none },
        { id := 1, user_id := "u", name := "A2", parent_id := some 1 } ],
    files := [], nextFolderId := 2 }

/-- A folder row with a dangling parent link (no owner row has id 99). -/
def fxOrphan : FolderRow :=
  { id := 2, user_id := "u", name := "X", parent_id := some 99 }

/-- A child of the orphaned folder. -/
def fxOrphanChild : FolderRow :=
  { id := 3, user_id := "u", name := "Y", parent_id := some 2 }

/-- Store with one reachable root folder, one orphaned folder, and a child
of the orphan. -/
def fxDb10 : MetaDB :=
  { folders := [fxFolderA, fxOrphan, fxOrphanChild], files := [],
    nextFolderId := 4 }

/-- Store state after creating folder "n" at the root for owner "u" on an
empty store. -/
def fxDb2' : MetaDB :=
  { folders := [{ id := 0, user_id := "u", name := "n", parent_id := none }],
    files := [], nextFolderId := 1 }

/-- All queue markers of the first k levels, in dequeue order. -/
def allQ (db : MetaDB) (user_id : String) (k : Nat) : List (Option Nat) :=
  (List.range k).flatMap (levelQ db user_id)

/-- The flat folder list accumulated over the first k levels: the levels
concatenated in increasing level order — the breadth-first order of the
traversal. -/
def accRows (db : MetaDB) (user_id : String) (k : Nat) : List FolderRow :=
  (List.range k).flatMap (levelRows db user_id)

/-! Theorems about the claims. -/

/-- Helper: the two branches of get_folders are one filter over the owner's
rows. -/
theorem get_folders_eq_filter (db : MetaDB) (u : String) (q : Option Nat) :
    Store.get_folders db u q =
      (userFolders db u).filter (fun r => r.parent_id == q) := by
  cases q <;> rfl

/-- Helper: membership in a children query. -/
theorem mem_get_folders {db : MetaDB} {u : String} {q : Option Nat}
    {r : FolderRow} :
    r ∈ Store.get_folders db u q ↔ r ∈ userFolders db u ∧ r.parent_id = q := by
  rw [get_folders_eq_filter]
  simp [List.mem_filter]

/-- Helper: level n+1 of the queue holds the some-wrapped ids of the rows
appended at level n. -/
theorem levelQ_succ (db : MetaDB) (u : String) (n : Nat) :
    levelQ db u (n + 1) = (levelRows db u n).map (fun r => some r.id) := rfl

/-- Helper: a run of the traversal loop that ends with some flat list ends
with the same list at any larger fuel. -/
theorem bfs_aux_mono (db : MetaDB) (u : String) :
    ∀ (fuel : Nat) (acc : List FolderRow) (queue : List (Option Nat))
      (L : List FolderRow),
      Service.bfs_aux db u fuel acc queue = some L →
      ∀ fuel', fuel ≤ fuel' → Service.bfs_aux db u fuel' acc queue = some L := by
  intro fuel
  induction fuel with
  | zero => intro acc queue L h; simp [Service.bfs_aux] at h
  | succ m ih =>
    intro acc queue L h fuel' hle
    obtain ⟨k, rfl⟩ : ∃ k, fuel' = k + 1 := ⟨fuel' - 1, by omega⟩
    cases queue with
    | nil =>
      simpa [Service.bfs_aux] using h
    | cons q qs =>
      simp only [Service.bfs_aux] at h ⊢
      exact ih _ _ _ h k (by omega)

/-- Helper: one block of traversal steps — draining a prefix qs of the
queue costs qs.length fuel, appends the concatenated children of qs to the
accumulator and enqueues their ids behind the rest of the queue. -/
theorem bfs_aux_block (db : MetaDB) (u : String) :
    ∀ (qs rest : List (Option Nat)) (acc : List FolderRow) (fuel : Nat),
      Service.bfs_aux db u (qs.length + fuel) acc (qs ++ rest) =
        Service.bfs_aux db u fuel
          (acc ++ qs.flatMap (fun q => Store.get_folders db u q))
          (rest ++ (qs.flatMap (fun q => Store.get_folders db u q)).map
            (fun r => some r.id)) := by
  intro qs
  induction qs with
  | nil => intro rest acc fuel; simp
  | cons q qs ih =>
    intro rest acc fuel
    have hstep :
        Service.bfs_aux db u ((q :: qs).length + fuel) acc ((q :: qs) ++ rest) =
          Service.bfs_aux db u (qs.length + fuel)
            (acc ++ Store.get_folders db u q)
            ((qs ++ rest) ++ (Store.get_folders db u q).map (fun r => some r.id)) := by
      simp only [List.length_cons, List.cons_append]
      rw [show qs.length + 1 + fuel = qs.length + fuel + 1 by omega]
      rfl
    rw [hstep]
    rw [show (qs ++ rest) ++ (Store.get_folders db u q).map (fun r => some r.id) =
        qs ++ (rest ++ (Store.get_folders db u q).map (fun r => some r.id)) from by
      simp [List.append_assoc]]
    rw [ih]
    simp [List.append_assoc, List.flatMap_cons]

/-- Helper: running the traversal from the start for the total size of the
first k levels lands exactly at the state "accumulated the first k levels
of rows, queue = level k". -/
theorem bfs_levels_run (db : MetaDB) (u : String) :
    ∀ (k fuel : Nat),
      Service.bfs_aux db u ((allQ db u k).length + fuel) [] [none] =
        Service.bfs_aux db u fuel (accRows db u k) (levelQ db u k) := by
  intro k
  induction k with
  | zero => intro fuel; simp [allQ, accRows]; rfl
  | succ k ih =>
    intro fuel
    have hsplit : allQ db u (k + 1) = allQ db u k ++ levelQ db u k := by
      unfold allQ
      rw [List.range_succ, List.flatMap_append]
      simp
    have hacc : accRows db u (k + 1) = accRows db u k ++ levelRows db u k := by
      unfold accRows
      rw [List.range_succ, List.flatMap_append]
      simp
    rw [hsplit, List.length_append,
      show (allQ db u k).length + (levelQ db u k).length + fuel =
        (allQ db u k).length + ((levelQ db u k).length + fuel) by omega,
      ih ((levelQ db u k).length + fuel)]
    have hblock := bfs_aux_block db u (levelQ db u k) [] (accRows db u k) fuel
    rw [List.append_nil] at hblock
    rw [hblock, hacc, levelQ_succ]
    rfl

/-- Helper: once a level is empty every later level is empty. -/
theorem levelQ_empty_mono (db : MetaDB) (u : String) {k : Nat}
    (h : levelQ db u k = []) : ∀ m, k ≤ m → levelQ db u m = [] := by
  intro m hkm
  induction m with
  | zero => exact (Nat.le_zero.mp hkm) ▸ h
  | succ m ih =>
    rcases Nat.lt_or_ge k (m + 1) with hlt | hge
    · have hm := ih (by omega)
      rw [levelQ_succ]
      unfold levelRows
      rw [hm]
      rfl
    · exact (Nat.le_antisymm hkm hge) ▸ h

/-- Helper: a row is appended at level n exactly when it is one of the
owner's rows and its parent marker sits in level n of the queue. -/
theorem mem_levelRows_iff (db : MetaDB) (u : String) (n : Nat) (r : FolderRow) :
    r ∈ levelRows db u n ↔
      r ∈ userFolders db u ∧ r.parent_id ∈ levelQ db u n := by
  unfold levelRows
  simp only [List.mem_flatMap, mem_get_folders]
  constructor
  · rintro ⟨q, hq, hru, hpq⟩
    exact ⟨hru, hpq ▸ hq⟩
  · rintro ⟨hru, hp⟩
    exact ⟨r.parent_id, hp, hru, rfl⟩

/-- Helper: the null marker never reappears after level 0. -/
theorem count_levelQ_none (db : MetaDB) (u : String) (n : Nat) :
    (levelQ db u (n + 1)).count none = 0 := by
  rw [levelQ_succ, List.count_eq_zero]
  simp

/-- Helper: with pairwise distinct ids, two owner rows with the same id are
the same row. -/
theorem unique_row (db : MetaDB) (u : String) (hnd : (idsOf db u).Nodup)
    {r1 r2 : FolderRow} (h1 : r1 ∈ userFolders db u)
    (h2 : r2 ∈ userFolders db u) (h : r1.id = r2.id) : r1 = r2 :=
  List.inj_on_of_nodup_map hnd h1 h2 h

/-- Helper: with pairwise distinct ids, at most one owner row carries a
given id. -/
theorem countP_id_le_one (db : MetaDB) (u : String)
    (hnd : (idsOf db u).Nodup) (x : Nat) :
    (userFolders db u).countP (fun r => r.id == x) ≤ 1 := by
  have h := List.nodup_iff_count_le_one.mp hnd x
  rw [List.count_eq_countP] at h
  unfold idsOf at h
  rw [List.countP_map] at h
  simpa [Function.comp] using h

/-- Helper: counting a some-wrapped id in the id projection of a row
list. -/
theorem count_some_map (l : List FolderRow) (x : Nat) :
    (l.map (fun r => some r.id)).count (some x) =
      l.countP (fun r => r.id == x) := by
  induction l with
  | nil => rfl
  | cons a l ih =>
    simp [List.count_cons, List.countP_cons, ih, Option.some_beq_some]

/-- Helper: countP distributes over flatMap as a sum. -/
theorem countP_flatMap_sum (p : FolderRow → Bool)
    (g : Option Nat → List FolderRow) :
    ∀ l : List (Option Nat),
      (l.flatMap g).countP p = (l.map (fun q => (g q).countP p)).sum := by
  intro l
  induction l with
  | nil => rfl
  | cons a l ih => simp [List.flatMap_cons, List.countP_append, ih]

/-- Helper: summing level indicators counts occurrences. -/
theorem sum_ite_eq_count (b : Option Nat) :
    ∀ l : List (Option Nat),
      (l.map (fun q => if b = q then 1 else 0)).sum = l.count b := by
  intro l
  induction l with
  | nil => rfl
  | cons a l ih =>
    by_cases h : b = a
    · subst h
      simp [List.count_cons, ih, Nat.add_comm]
    · have ha : (a == b) = false := by
        simp only [beq_eq_false_iff_ne, ne_eq]
        exact fun hh => h hh.symm
      simp [List.count_cons, ih, h, ha]

/-- Helper: key counting identity — occurrences of a row's id marker at
level n+1 equal the occurrences of the row's parent marker at level n
(given distinct ids, so the row is the only one with its id). -/
theorem count_levelQ_succ_row (db : MetaDB) (u : String)
    (hnd : (idsOf db u).Nodup) {r : FolderRow}
    (hr : r ∈ userFolders db u) (n : Nat) :
    (levelQ db u (n + 1)).count (some r.id) =
      (levelQ db u n).count r.parent_id := by
  rw [levelQ_succ, count_some_map]
  unfold levelRows
  rw [countP_flatMap_sum]
  have hpt : ∀ q : Option Nat,
      (Store.get_folders db u q).countP (fun row => row.id == r.id) =
        if r.parent_id = q then 1 else 0 := by
    intro q
    rw [get_folders_eq_filter, List.countP_filter]
    by_cases hq : r.parent_id = q
    · rw [if_pos hq]
      refine Nat.le_antisymm ?_ ?_
      · refine le_trans (List.countP_mono_left fun a _ hpa => ?_)
          (countP_id_le_one db u hnd r.id)
        exact (Bool.and_eq_true _ _ |>.mp hpa).1
      · have hpos : 0 < (userFolders db u).countP
            (fun a => a.id == r.id && a.parent_id == q) :=
          List.countP_pos_iff.mpr ⟨r, hr, by simp [hq]⟩
        omega
    · rw [if_neg hq, List.countP_eq_zero]
      intro a ha hpa
      rw [Bool.and_eq_true, beq_iff_eq, beq_iff_eq] at hpa
      have har : a = r := unique_row db u hnd ha hr hpa.1
      exact hq (har ▸ hpa.2)
  have hmap : (levelQ db u n).map
      (fun q => (Store.get_folders db u q).countP (fun row => row.id == r.id)) =
        (levelQ db u n).map (fun q => if r.parent_id = q then 1 else 0) :=
    List.map_congr_left fun q _ => hpt q
  calc ((levelQ db u n).map
        ((fun l => l.countP fun row => row.id == r.id) ∘
          fun q => Store.get_folders db u q)).sum
      = ((levelQ db u n).map
          (fun q => if r.parent_id = q then 1 else 0)).sum := by
        rw [← hmap]; rfl
    _ = (levelQ db u n).count r.parent_id := sum_ite_eq_count _ _

/-- Helper: an id carried by no owner row never enters the queue after
level 0. -/
theorem count_levelQ_succ_no_row (db : MetaDB) (u : String) (x : Nat)
    (hx : ∀ r ∈ userFolders db u, r.id ≠ x) (n : Nat) :
    (levelQ db u (n + 1)).count (some x) = 0 := by
  rw [levelQ_succ, count_some_map, List.countP_eq_zero]
  intro a ha
  have hau := ((mem_levelRows_iff db u n a).mp ha).1
  simp only [beq_iff_eq]
  exact hx a hau

/-- Helper: duplicate-freedom over a lawful BEq is the all-counts-at-most-one
property. -/
theorem nodup_iff_count_le_oneQ {α : Type} [BEq α] [LawfulBEq α] :
    ∀ l : List α, l.Nodup ↔ ∀ a, l.count a ≤ 1 := by
  intro l
  induction l with
  | nil => simp
  | cons a l ih =>
    rw [List.nodup_cons]
    constructor
    · rintro ⟨hna, hnl⟩ q
      rw [List.count_cons]
      have hl := (ih.mp hnl) q
      by_cases hq : (a == q) = true
      · have haq : a = q := beq_iff_eq.mp hq
        have hq0 : l.count q = 0 := List.count_eq_zero.mpr (haq ▸ hna)
        simp [hq, hq0]
      · simp [hq]
        exact hl
    · intro h
      refine ⟨?_, ih.mpr fun q => ?_⟩
      · intro hmem
        have h1 := h a
        rw [List.count_cons] at h1
        have h2 : 0 < l.count a :=
          Nat.pos_of_ne_zero (fun h0 => (List.count_eq_zero.mp h0) hmem)
        simp at h1
        omega
      · have h1 := h q
        rw [List.count_cons] at h1
        omega

/-- Helper: every level of the queue is duplicate-free when ids are
pairwise distinct. -/
theorem levelQ_nodup (db : MetaDB) (u : String)
    (hnd : (idsOf db u).Nodup) : ∀ n, (levelQ db u n).Nodup := by
  intro n
  induction n with
  | zero => simp [levelQ]
  | succ n ih =>
    rw [nodup_iff_count_le_oneQ]
    intro q
    cases q with
    | none => rw [count_levelQ_none]; omega
    | some x =>
      by_cases hx : ∃ r ∈ userFolders db u, r.id = x
      · obtain ⟨r, hr, rfl⟩ := hx
        rw [count_levelQ_succ_row db u hnd hr n]
        exact (nodup_iff_count_le_oneQ _).mp ih _
      · push_neg at hx
        rw [count_levelQ_succ_no_row db u x hx n]
        omega

/-- Helper: unpacking membership at a successor level. -/
theorem mem_levelQ_succ_elim (db : MetaDB) (u : String) {n : Nat}
    {q : Option Nat} (h : q ∈ levelQ db u (n + 1)) :
    ∃ r ∈ userFolders db u, q = some r.id ∧ r.parent_id ∈ levelQ db u n := by
  rw [levelQ_succ] at h
  obtain ⟨r, hr, rfl⟩ := List.mem_map.mp h
  obtain ⟨hru, hp⟩ := (mem_levelRows_iff db u n r).mp hr
  exact ⟨r, hru, rfl, hp⟩

/-- Helper: with pairwise distinct ids a queue marker appears in at most
one level. -/
theorem levelQ_disjoint (db : MetaDB) (u : String)
    (hnd : (idsOf db u).Nodup) :
    ∀ n m, n < m → ∀ q, q ∈ levelQ db u n → q ∉ levelQ db u m := by
  intro n
  induction n with
  | zero =>
    intro m hm q hq hqm
    have hq0 : q = none := by
      simpa [show levelQ db u 0 = [none] from rfl] using hq
    obtain ⟨m', rfl⟩ : ∃ m', m = m' + 1 := ⟨m - 1, by omega⟩
    obtain ⟨r, -, heq, -⟩ := mem_levelQ_succ_elim db u hqm
    exact Option.noConfusion (hq0 ▸ heq)
  | succ n ih =>
    intro m hm q hq hqm
    obtain ⟨m', rfl⟩ : ∃ m', m = m' + 1 := ⟨m - 1, by omega⟩
    obtain ⟨r1, hr1, rfl, hp1⟩ := mem_levelQ_succ_elim db u hq
    obtain ⟨r2, hr2, heq, hp2⟩ := mem_levelQ_succ_elim db u hqm
    have hid : r1.id = r2.id := Option.some.inj heq
    have hr21 : r2 = r1 := unique_row db u hnd hr2 hr1 hid.symm
    subst hr21
    exact ih m' (by omega) r2.parent_id hp1 hp2

/-- Helper: splitting the first k+1 levels. -/
theorem allQ_succ (db : MetaDB) (u : String) (k : Nat) :
    allQ db u (k + 1) = allQ db u k ++ levelQ db u k := by
  unfold allQ
  rw [List.range_succ, List.flatMap_append]
  simp

/-- Helper: splitting the first k+1 levels of rows. -/
theorem accRows_succ (db : MetaDB) (u : String) (k : Nat) :
    accRows db u (k + 1) = accRows db u k ++ levelRows db u k := by
  unfold accRows
  rw [List.range_succ, List.flatMap_append]
  simp

/-- Helper: membership across the first k levels. -/
theorem mem_allQ (db : MetaDB) (u : String) {k : Nat} {q : Option Nat} :
    q ∈ allQ db u k ↔ ∃ n, n < k ∧ q ∈ levelQ db u n := by
  unfold allQ
  simp [List.mem_flatMap, List.mem_range]

/-- Helper: with pairwise distinct ids the whole dequeue history is
duplicate-free. -/
theorem allQ_nodup (db : MetaDB) (u : String)
    (hnd : (idsOf db u).Nodup) : ∀ k, (allQ db u k).Nodup := by
  intro k
  induction k with
  | zero => simp [allQ]
  | succ k ih =>
    rw [allQ_succ, List.nodup_append]
    refine ⟨ih, levelQ_nodup db u hnd k, ?_⟩
    intro q hq hqk
    obtain ⟨n, hn, hqn⟩ := (mem_allQ db u).mp hq
    exact levelQ_disjoint db u hnd n k hn q hqn hqk

/-- Helper: every dequeued marker is the null root or a some-wrapped owner
row id. -/
theorem allQ_subset (db : MetaDB) (u : String) (k : Nat) :
    ∀ q ∈ allQ db u k, q ∈ (none :: (idsOf db u).map some) := by
  intro q hq
  obtain ⟨n, -, hqn⟩ := (mem_allQ db u).mp hq
  cases n with
  | zero =>
    have : q = none := by
      simpa [show levelQ db u 0 = [none] from rfl] using hqn
    simp [this]
  | succ n =>
    obtain ⟨r, hr, rfl, -⟩ := mem_levelQ_succ_elim db u hqn
    have : r.id ∈ idsOf db u := List.mem_map.mpr ⟨r, hr, rfl⟩
    exact List.mem_cons_of_mem _ (List.mem_map.mpr ⟨r.id, this, rfl⟩)

/-- Helper: the dequeue history never exceeds the owner's row count plus
the root marker. -/
theorem allQ_length_le (db : MetaDB) (u : String)
    (hnd : (idsOf db u).Nodup) (k : Nat) :
    (allQ db u k).length ≤ (userFolders db u).length + 1 := by
  have hsp := List.subperm_of_subset (allQ_nodup db u hnd k)
    (fun q hq => allQ_subset db u k q hq)
  have hle := hsp.length_le
  simpa [idsOf] using hle

/-- Helper: with pairwise distinct ids some level within the first
row-count-plus-two levels is empty. -/
theorem exists_levelQ_empty (db : MetaDB) (u : String)
    (hnd : (idsOf db u).Nodup) :
    ∃ K, K ≤ (userFolders db u).length + 1 ∧ levelQ db u K = [] := by
  by_contra hcon
  push_neg at hcon
  have hge : ∀ k, (∀ n, n < k → levelQ db u n ≠ []) →
      k ≤ (allQ db u k).length := by
    intro k
    induction k with
    | zero => simp
    | succ k ih =>
      intro hne
      rw [allQ_succ, List.length_append]
      have h1 := ih (fun n hn => hne n (by omega))
      have h2 : 0 < (levelQ db u k).length :=
        List.length_pos.mpr (hne k (by omega))
      omega
  have hbig := hge ((userFolders db u).length + 2)
    (fun n hn => hcon n (by omega))
  have hb := allQ_length_le db u hnd ((userFolders db u).length + 2)
  omega

/-- Helper: with an empty level K, the traversal returns the first K levels
of rows at any sufficient fuel. -/
theorem bfs_run_stable (db : MetaDB) (u : String) {K : Nat}
    (hK : levelQ db u K = []) :
    ∀ fuel, (allQ db u K).length + 1 ≤ fuel →
      Service.bfs_aux db u fuel [] [none] = some (accRows db u K) := by
  have h0 : Service.bfs_aux db u ((allQ db u K).length + 1) [] [none] =
      some (accRows db u K) := by
    rw [bfs_levels_run db u K 1, hK]
    rfl
  intro fuel hf
  exact bfs_aux_mono db u _ _ _ _ h0 fuel hf

/-- Helper: dequeued markers are exactly the members of some level. -/
theorem dequeued_iff_mem_levelQ (db : MetaDB) (u : String) {q : Option Nat} :
    Dequeued db u q ↔ ∃ n, q ∈ levelQ db u n := by
  constructor
  · intro h
    induction h with
    | root => exact ⟨0, by simp [show levelQ db u 0 = [none] from rfl]⟩
    | child q r hq hr ih =>
      obtain ⟨n, hn⟩ := ih
      refine ⟨n + 1, ?_⟩
      rw [levelQ_succ]
      refine List.mem_map.mpr ⟨r, ?_, rfl⟩
      unfold levelRows
      exact List.mem_flatMap.mpr ⟨q, hn, hr⟩
  · rintro ⟨n, hn⟩
    induction n generalizing q with
    | zero =>
      have : q = none := by
        simpa [show levelQ db u 0 = [none] from rfl] using hn
      exact this ▸ Dequeued.root
    | succ n ih =>
      rw [levelQ_succ] at hn
      obtain ⟨r, hr, rfl⟩ := List.mem_map.mp hn
      unfold levelRows at hr
      obtain ⟨q', hq', hrq'⟩ := List.mem_flatMap.mp hr
      exact Dequeued.child q' r (ih hq') hrq'

/-- Helper: the rows of a finished traversal are exactly the reachable
rows. -/
theorem mem_accRows_iff (db : MetaDB) (u : String) {K : Nat}
    (hK : levelQ db u K = []) {r : FolderRow} :
    r ∈ accRows db u K ↔ ReachableRow db u r := by
  unfold accRows ReachableRow
  simp only [List.mem_flatMap, List.mem_range]
  constructor
  · rintro ⟨n, hn, hr⟩
    obtain ⟨hru, hp⟩ := (mem_levelRows_iff db u n r).mp hr
    exact ⟨hru, (dequeued_iff_mem_levelQ db u).mpr ⟨n, hp⟩⟩
  · rintro ⟨hru, hdq⟩
    obtain ⟨n, hn⟩ := (dequeued_iff_mem_levelQ db u).mp hdq
    refine ⟨n, ?_, (mem_levelRows_iff db u n r).mpr ⟨hru, hn⟩⟩
    by_contra hnk
    push_neg at hnk
    have hempty := levelQ_empty_mono db u hK n hnk
    rw [hempty] at hn
    cases hn

/-- Helper: the flat list of a finished traversal is duplicate-free when
ids are pairwise distinct. -/
theorem accRows_nodup (db : MetaDB) (u : String)
    (hnd : (idsOf db u).Nodup) (K : Nat) : (accRows db u K).Nodup := by
  have hmap : (accRows db u K).map (fun r => some r.id) =
      (List.range K).flatMap (fun n => levelQ db u (n + 1)) := by
    unfold accRows
    rw [List.map_flatMap]
    simp only [levelQ_succ]
  have hsuffix : allQ db u (K + 1) =
      levelQ db u 0 ++ (List.range K).flatMap (fun n => levelQ db u (n + 1)) := by
    unfold allQ
    rw [List.range_succ_eq_map, List.flatMap_cons, List.flatMap_map]
  have h := allQ_nodup db u hnd (K + 1)
  rw [hsuffix] at h
  have h2 := (List.nodup_append.mp h).2.1
  rw [← hmap] at h2
  exact h2.of_map _


/-- Helper: the folder existence check holds exactly when some row of the
store matches owner, name and parent. -/
theorem folder_exists_iff (db : MetaDB) (u n : String) (p : Option Nat) :
    Store.folder_exists db u n p = true ↔
      ∃ r ∈ db.folders, r.user_id = u ∧ r.name = n ∧ r.parent_id = p := by
  cases p <;>
    simp only [Store.folder_exists, decide_eq_true_eq, gt_iff_lt,
      List.length_pos_iff_exists_mem, List.mem_filter, Bool.and_eq_true,
      beq_iff_eq, and_assoc]


/-- C1.  At a concrete input where the blob upload succeeds and the
metadata insert then fails, FilesystemService.create_file surfaces the
metadata failure but attempts no compensating delete: the blob is still
stored at the computed storage path afterwards.  The legacy endpoint
create_file (app/api/endpoints/files.py), by contrast, deletes the blob and
surfaces the metadata failure, exactly as the claim demands. -/
theorem create_file_meta_failure_leaves_blob :
    Service.create_file fxW0 fxFaultMeta "doc.tex" none "u" [1, 2, 3] =
      (.error (genericDbFailure "create_file" "store fault"),
       { meta := fxDbEmpty, bucket := [("u/doc.tex", [1, 2, 3])] }) ∧
    Storage.file_exists_in_bucket
      (Service.create_file fxW0 fxFaultMeta "doc.tex" none "u" [1, 2, 3]).2.bucket
      (storage_path_of "u" none "doc.tex") = true ∧
    Endpoint.create_file fxW0 fxFaultMeta "doc.tex" none none "u" [1, 2, 3] =
      (.error (.databaseError "Error creating file in database"
          [("error", "store fault")]), fxW0) := by
  refine ⟨rfl, rfl, rfl⟩

/-- C4.  deleteFile resolves the row first (NotFound, state untouched, when
no row matches id and owner), then deletes the blob — a blob-deletion
failure propagates as-is and leaves the whole state, in particular the
metadata row, in place — and only then deletes the metadata row (on the
success path the final state is the blob-less bucket and the metadata store
without the row). -/
theorem delete_file_blob_first_ordering (w : World) (faults : Faults)
    (fid : Nat) (u : String) :
    (Store.get_file w.meta fid u = none →
      Service.delete_file w faults fid u =
        (.error (.notFoundError "File not found or unauthorized"
            [("file_id", toString fid)]), w)) ∧
    (∀ row, Store.get_file w.meta fid u = some row →
      faults.delete_blob_fails = true →
      Service.delete_file w faults fid u =
        (.error (.storageError "Error deleting file"
            [("error", faults.fault_msg)]), w) ∧
      row ∈ w.meta.files) ∧
    (∀ row, Store.get_file w.meta fid u = some row →
      faults.delete_blob_fails = false →
      (Service.delete_file w faults fid u).2 =
        { meta := (Store.delete_file w.meta fid u).2,
          bucket := Storage.delete_file w.bucket row.storage_path }) := by
  refine ⟨?_, ?_, ?_⟩
  · intro h
    simp [Service.delete_file, Service.get_file, h]
  · intro row h hf
    refine ⟨by simp [Service.delete_file, Service.get_file, h, hf], ?_⟩
    have hmem : row ∈ w.meta.files.filter
        (fun r => r.id == fid && r.user_id == u) := by
      unfold Store.get_file at h
      exact List.mem_of_mem_head? h
    exact (List.mem_filter.mp hmem).1
  · intro row h hf
    simp only [Service.delete_file, Service.get_file, h, hf, Bool.false_eq_true,
      if_false]
    simp [Store.delete_file]
    cases List.find? (fun r => r.id == fid && r.user_id == u) w.meta.files <;> rfl

/-- C5 counterexample.  The files listing with a null folder argument is a
wildcard, not an IS NULL filter: for a store whose single file sits inside
folder 7, `get_files(owner, folder_id=None)` returns that file, which
differs from the set of the owner's files with null folder_id. -/
theorem get_files_null_wildcard_counterexample :
    Store.get_files fxDb5 "u" none = fxDb5.files ∧
    (∀ r ∈ Store.get_files fxDb5 "u" none, r.folder_id ≠ none) ∧
    Store.get_files fxDb5 "u" none ≠
      fxDb5.files.filter (fun r => r.user_id == "u" && r.folder_id == none) := by
  refine ⟨rfl, by decide, by decide⟩

/-- C5 amended.  The folders listing treats a null parent argument as an
IS NULL filter (exactly the owner's root folders), while the files listing
treats a null folder argument as NO filter at all: it returns every file of
the owner regardless of folder_id. -/
theorem listing_null_semantics_amended (db : MetaDB) (u : String) :
    Store.get_folders db u none =
      db.folders.filter (fun r => r.user_id == u && r.parent_id == none) ∧
    Store.get_files db u none = db.files.filter (fun r => r.user_id == u) := by
  constructor
  · simp [Store.get_folders, List.filter_filter, Bool.and_comm]
  · rfl

/-- C6.  updateFile with new content re-uploads to the file's current
storage location (derived from the current stored name and folder id), but
for a file whose blob exists at that location the upload's duplicate check
rejects the write with the DUPLICATE_FILE storage error instead of
overwriting in place — the state is left unchanged and the metadata patch
is never applied. -/
theorem update_file_reupload_rejected_duplicate :
    storage_path_of "u" fxFileRow.folder_id fxFileRow.name =
      fxFileRow.storage_path ∧
    Service.update_file fxWFile 1 {} "u" (some [9]) =
      (.error (.storageError "File with the same name already exists in this location"
          [("error", "DUPLICATE_FILE")]), fxWFile) := by
  refine ⟨rfl, rfl⟩

/-- C8.  When every row carrying the requested file id belongs to owner b,
any other owner a gets the NotFound error, and that outcome coincides with
what getFile returns on a store holding no row with that id at all: the
result never reveals that the id exists under a different owner. -/
theorem get_file_cross_owner_not_found (db : MetaDB) (fid : Nat)
    (a b : String) (hb : ∀ r ∈ db.files, r.id = fid → r.user_id = b)
    (hab : a ≠ b) :
    Service.get_file db fid a =
      .error (.notFoundError "File not found or unauthorized"
        [("file_id", toString fid)]) ∧
    ∀ db2 : MetaDB, (∀ r ∈ db2.files, r.id ≠ fid) →
      Service.get_file db2 fid a = Service.get_file db fid a := by
  have hnil : db.files.filter (fun r => r.id == fid && r.user_id == a) = [] := by
    rw [List.filter_eq_nil_iff]
    intro r hr
    simp only [Bool.and_eq_true, beq_iff_eq, not_and]
    intro hid ha
    exact hab (ha ▸ hb r hr hid ▸ rfl)
  constructor
  · simp [Service.get_file, Store.get_file, hnil]
  · intro db2 h2
    have hnil2 : db2.files.filter (fun r => r.id == fid && r.user_id == a) = [] := by
      rw [List.filter_eq_nil_iff]
      intro r hr
      simp only [Bool.and_eq_true, beq_iff_eq, not_and]
      intro hid
      exact absurd hid (h2 r hr)
    simp [Service.get_file, Store.get_file, hnil, hnil2]

/-- C8 witness: owner A requesting the file that owner B created gets the
NotFound error. -/
theorem get_file_cross_owner_not_found_witness :
    Service.get_file fxDb8 1 "A" =
      .error (.notFoundError "File not found or unauthorized"
        [("file_id", "1")]) :=
  (get_file_cross_owner_not_found fxDb8 1 "A" "B" (by decide) (by decide)).1

/-- C4 witness: deleting the stored file while the blob deletion faults
surfaces the storage failure and leaves the state, metadata row included,
untouched. -/
theorem delete_file_blob_first_ordering_witness :
    Service.delete_file fxWFile fxFaultBlob 1 "u" =
      (.error (.storageError "Error deleting file" [("error", "store fault")]),
       fxWFile) ∧
    fxFileRow ∈ fxWFile.meta.files :=
  (delete_file_blob_first_ordering fxWFile fxFaultBlob 1 "u").2.1 fxFileRow
    (by decide) (by decide)

/-- C2.  After createFolder(n, p, u) succeeds, a second createFolder(n, p,
u) fails with the DUPLICATE_FOLDER DatabaseError — whose message differs
from every error the generic failure wrapper can produce, so the outcome is
distinguishable from generic store failure — while createFolder(n, p2, u)
for any other parent p2 without a prior sibling named n succeeds. -/
theorem create_folder_duplicate_and_sibling_scope
    (db : MetaDB) (n : String) (p p2 : Option Nat) (u : String)
    (r : FolderRow) (db' : MetaDB)
    (h1 : Service.create_folder db n p u = (.ok r, db'))
    (hp : p2 ≠ p) (h2 : Store.folder_exists db u n p2 = false) :
    Service.create_folder db' n p u =
      (.error (.databaseError
          "Folder with the same name already exists in this location"
          [("error", "DUPLICATE_FOLDER")]), db') ∧
    (∀ fname cause : String,
      (Err.databaseError
        "Folder with the same name already exists in this location"
        [("error", "DUPLICATE_FOLDER")]) ≠ genericDbFailure fname cause) ∧
    ∃ (r2 : FolderRow) (db2 : MetaDB),
      Service.create_folder db' n p2 u = (.ok r2, db2) := by
  unfold Service.create_folder at h1
  by_cases hex : Store.folder_exists db u n p = true
  · rw [if_pos hex] at h1
    exact absurd (congrArg Prod.fst h1) (by simp)
  · rw [if_neg hex] at h1
    have hdb' : db' = (Store.create_folder db u n p).2 :=
      (congrArg Prod.snd h1).symm
    have hfolders : db'.folders =
        db.folders ++ [(Store.create_folder db u n p).1] := by
      rw [hdb']
      rfl
    have hdup : Store.folder_exists db' u n p = true := by
      rw [folder_exists_iff]
      exact ⟨(Store.create_folder db u n p).1,
        hfolders ▸ List.mem_append_right _ (List.mem_singleton.mpr rfl),
        rfl, rfl, rfl⟩
    refine ⟨by simp [Service.create_folder, hdup], ?_, ?_⟩
    · intro fname cause hEq
      have hmsg : "Folder with the same name already exists in this location" =
          "Database operation failed in " ++ fname := by
        injection hEq with hmsg hdet
      have hdata := congrArg String.data hmsg
      rw [String.data_append] at hdata
      have hh := congrArg List.head? hdata
      rw [List.head?_append_of_ne_nil _ (by decide)] at hh
      revert hh
      decide
    · have hnodup : Store.folder_exists db' u n p2 = false := by
        rw [← Bool.not_eq_true, folder_exists_iff]
        rintro ⟨a, ha, hu, hn, hpa⟩
        rw [hfolders] at ha
        rcases List.mem_append.mp ha with hL | hR
        · have hx : Store.folder_exists db u n p2 = true :=
            (folder_exists_iff db u n p2).mpr ⟨a, hL, hu, hn, hpa⟩
          rw [h2] at hx
          cases hx
        · rcases List.mem_singleton.mp hR with rfl
          exact hp (show p2 = p from hpa.symm)
      exact ⟨(Store.create_folder db' u n p2).1, (Store.create_folder db' u n p2).2,
        by simp [Service.create_folder, hnodup]⟩

/-- C2 witness: on the store produced by the first createFolder("n", root,
"u"), a repeat fails with the duplicate error and a createFolder("n",
folder 5, "u") succeeds. -/
theorem create_folder_duplicate_and_sibling_scope_witness :
    Service.create_folder fxDb2' "n" none "u" =
      (.error (.databaseError
          "Folder with the same name already exists in this location"
          [("error", "DUPLICATE_FOLDER")]), fxDb2') ∧
    ∃ (r2 : FolderRow) (db2 : MetaDB),
      Service.create_folder fxDb2' "n" (some 5) "u" = (.ok r2, db2) := by
  have h := create_folder_duplicate_and_sibling_scope fxDbEmpty "n" none
    (some 5) "u" { id := 0, user_id := "u", name := "n", parent_id := none }
    fxDb2' rfl (by decide) (by decide)
  exact ⟨h.1, h.2.2⟩

/-- C3.  On the worked example — folders A and C at the root, B inside A,
files f1 in A, f2 in B, f3 at the root — the rebuilt tree has top-level
folders [A, C] in breadth-first order, A's subfolders [B], A's files [f1],
B's files [f2], and top-level files [f3], for every fuel that lets the
traversal finish (its run needs five queue pops). -/
theorem filesystem_tree_example_reconstruction :
    ∀ fuel, 5 ≤ fuel →
      Service.get_filesystem_tree fxDb3 "u" fuel = some fxTree3 := by
  intro fuel hf
  have hflat : Service.bfs_aux fxDb3 "u" 5 [] [none] =
      some [fxFolderA, fxFolderC, fxFolderB] := by decide
  have hflat' := bfs_aux_mono fxDb3 "u" 5 [] [none] _ hflat fuel hf
  unfold Service.get_filesystem_tree Service.get_all_folders_recursive
  rw [hflat']
  rfl

/-- C3 witness: the tree materialises at fuel 5. -/
theorem filesystem_tree_example_reconstruction_witness :
    Service.get_filesystem_tree fxDb3 "u" 5 = some fxTree3 :=
  filesystem_tree_example_reconstruction 5 (by decide)

/-- C9 counterexample.  The filename ".tex" ends in ".tex" (so the claim
says the extension check passes), yet the upload rejects it before any
write: os.path.splitext treats the whole basename ".tex" as the root with
an empty extension. -/
theorem upload_bare_dot_tex_counterexample :
    endswith_tex_ci ".tex" = true ∧
    file_extension ".tex" = "" ∧
    Storage.upload_file [] ".tex" [1] "u" none =
      (.error (.storageError "Invalid file type"
          [("error", "Only .tex files are allowed")]), ([] : Bucket)) := by
  refine ⟨by decide, by decide, rfl⟩

/-- C9 amended.  Uploads whose computed (lower-cased, splitext-style)
extension differs from ".tex" fail with the invalid-file-type error before
any write (the bucket is returned unchanged); and the extension check
passes for every filename ending in ".tex" in any letter case whose
basename has a non-dot character before that final dot (the bare-leading-dot
names such as ".tex" being exactly the ones os.path.splitext exempts). -/
theorem upload_tex_extension_check_amended (bucket : Bucket) (p : String)
    (content : List Nat) (uid : String) (fid : Option Nat) :
    (file_extension p ≠ ".tex" →
      Storage.upload_file bucket p content uid fid =
        (.error (.storageError "Invalid file type"
            [("error", "Only .tex files are allowed")]), bucket)) ∧
    (∀ (c1 c2 c3 : Char) (rest : List Char),
      p.toList.reverse = c1 :: c2 :: c3 :: '.' :: rest →
      c1.toLower = 'x' → c2.toLower = 'e' → c3.toLower = 't' →
      (∃ c ∈ rest.takeWhile (fun c => c != '/'), c ≠ '.') →
      file_extension p = ".tex") := by
  constructor
  · intro h
    have hb : (file_extension p != ".tex") = true := by
      simpa [bne_iff_ne] using h
    simp [Storage.upload_file, hb]
  · rintro c1 c2 c3 rest hrev h1 h2 h3 ⟨c, hcmem, hcne⟩
    have hslash : ∀ (a : Char) (target : Char), a.toLower = target →
        target ≠ '/' → target ≠ '.' → (a != '/') = true ∧ (a != '.') = true := by
      intro a target hlow hs hd
      constructor <;> simp only [bne_iff_ne, ne_eq] <;> intro hEq <;> subst hEq
      · exact hs (by rw [← hlow]; decide)
      · exact hd (by rw [← hlow]; decide)
    obtain ⟨hc1s, hc1d⟩ := hslash c1 'x' h1 (by decide) (by decide)
    obtain ⟨hc2s, hc2d⟩ := hslash c2 'e' h2 (by decide) (by decide)
    obtain ⟨hc3s, hc3d⟩ := hslash c3 't' h3 (by decide) (by decide)
    have hrb : (basenameCl p.toList).reverse =
        c1 :: c2 :: c3 :: '.' :: rest.takeWhile (fun c => c != '/') := by
      unfold basenameCl
      rw [List.reverse_reverse, hrev]
      simp [List.takeWhile_cons, hc1s, hc2s, hc3s]
    have hsuf : ((basenameCl p.toList).reverse).takeWhile
        (fun c => c != '.') = [c1, c2, c3] := by
      rw [hrb]
      simp [List.takeWhile_cons, hc1d, hc2d, hc3d]
    have hext : splitextExtCl p.toList = ['.', c3, c2, c1] := by
      unfold splitextExtCl
      rw [hsuf, hrb]
      have hlen : (([c1, c2, c3] : List Char).length ==
          (c1 :: c2 :: c3 :: '.' :: rest.takeWhile (fun c => c != '/')).length)
            = false := by
        simp
      rw [hlen]
      have hall : ((c1 :: c2 :: c3 :: '.' ::
          rest.takeWhile (fun c => c != '/')).drop
            (([c1, c2, c3] : List Char).length + 1)).all
            (fun c => c == '.') = false := by
        simp only [List.length_cons, List.length_nil, List.drop_succ_cons,
          List.drop_zero]
        rw [List.all_eq_false]
        exact ⟨c, hcmem, by simpa using hcne⟩
      rw [hall]
      simp
    unfold file_extension
    rw [hext]
    have : (['.', c3, c2, c1].map Char.toLower) = ['.', 't', 'e', 'x'] := by
      simp [h1, h2, h3]
    rw [this]

/-- Helper: every dequeued marker is reachable from the root marker along
queue steps. -/
theorem dequeued_reflTransGen (db : MetaDB) (u : String) {q : Option Nat}
    (h : Dequeued db u q) :
    Relation.ReflTransGen (stepQ db u) none q := by
  induction h with
  | root => exact .refl
  | child q r hq hr ih => exact ih.tail ⟨r, hr, rfl⟩

/-- Helper: while some queue entry can still reach a parent-link cycle, the
traversal loop never empties its queue, so it exhausts any fuel. -/
theorem bfs_aux_cycle_none (db : MetaDB) (u : String) :
    ∀ (fuel : Nat) (acc : List FolderRow) (queue : List (Option Nat)),
      (∃ q ∈ queue, ReachesCycleFrom db u q) →
      Service.bfs_aux db u fuel acc queue = none := by
  intro fuel
  induction fuel with
  | zero => intro acc queue h; rfl
  | succ fuel ih =>
    rintro acc queue ⟨w, hw, hwreach⟩
    cases queue with
    | nil => cases hw
    | cons q qs =>
      simp only [Service.bfs_aux]
      apply ih
      rcases List.mem_cons.mp hw with rfl | hwqs
      · obtain ⟨z, hpath, hcyc⟩ := hwreach
        rcases hpath.cases_head with heq | ⟨c, hqc, hcz⟩
        · obtain ⟨y, hzy, hyz⟩ := Relation.TransGen.head'_iff.mp hcyc
          obtain ⟨rowy, hrowy, hpz, hidy⟩ := hzy
          refine ⟨some y, List.mem_append_right _ ?_, y, .refl,
            Relation.TransGen.trans_right hyz (Relation.TransGen.single
              ⟨rowy, hrowy, hpz, hidy⟩)⟩
          refine List.mem_map.mpr ⟨rowy, ?_, by rw [hidy]⟩
          exact mem_get_folders.mpr ⟨hrowy, by rw [hpz, heq]⟩
        · obtain ⟨rowc, hrowc, hceq⟩ := hqc
          refine ⟨c, List.mem_append_right _ ?_, z, hcz, hcyc⟩
          exact hceq ▸ List.mem_map.mpr ⟨rowc, hrowc, rfl⟩
      · exact ⟨w, List.mem_append_left _ hwqs, hwreach⟩

/-- C7.  For an owner whose rows form a forest (distinct primary-key ids,
no cycle in the parent links) the breadth-first traversal terminates: at
every fuel beyond the row count plus two it returns the concatenation of
the successive levels — the flat list in breadth-first order — which
contains a folder row exactly when the row is reachable from the null root
and contains no duplicates (every reachable folder appended exactly once).
And whenever a marker on a parent-link cycle is ever dequeued, the
traversal returns none at every fuel: the source loop never terminates. -/
theorem bfs_forest_terminates_cycle_diverges (db : MetaDB) (u : String) :
    (IsForest db u →
      ∃ K, K ≤ (userFolders db u).length + 1 ∧ levelQ db u K = [] ∧
        (∀ fuel, (userFolders db u).length + 2 ≤ fuel →
          Service.get_all_folders_recursive db u fuel =
            some (accRows db u K)) ∧
        (∀ r, r ∈ accRows db u K ↔ ReachableRow db u r) ∧
        (accRows db u K).Nodup) ∧
    (∀ x, Dequeued db u (some x) → Relation.TransGen (stepRel db u) x x →
      ∀ fuel, Service.get_all_folders_recursive db u fuel = none) := by
  constructor
  · rintro ⟨hnd, -⟩
    obtain ⟨K, hKle, hKempty⟩ := exists_levelQ_empty db u hnd
    refine ⟨K, hKle, hKempty, ?_, fun r => mem_accRows_iff db u hKempty,
      accRows_nodup db u hnd K⟩
    intro fuel hf
    unfold Service.get_all_folders_recursive
    apply bfs_run_stable db u hKempty
    have := allQ_length_le db u hnd K
    omega
  · intro x hdq hcyc fuel
    unfold Service.get_all_folders_recursive
    exact bfs_aux_cycle_none db u fuel [] [none]
      ⟨none, List.mem_singleton.mpr rfl, x, dequeued_reflTransGen db u hdq,
        hcyc⟩

/-- C7 witness: on the worked forest the traversal finishes at fuel five
with a duplicate-free list containing folder A; on the store with a
reachable parent-link cycle it returns none even with generous fuel. -/
theorem bfs_forest_terminates_cycle_diverges_witness :
    (∃ L, Service.get_all_folders_recursive fxDb3 "u" 5 = some L ∧
      L.Nodup ∧ fxFolderA ∈ L) ∧
    Service.get_all_folders_recursive fxDbCycle "u" 37 = none := by
  constructor
  · have hforest : IsForest fxDb3 "u" := by
      constructor
      · decide
      · have hstep : ∀ x y : Nat, stepRel fxDb3 "u" x y → x = 1 ∧ y = 2 := by
          rintro x y ⟨r, hr, hp, hi⟩
          rw [show userFolders fxDb3 "u" =
            [fxFolderA, fxFolderB, fxFolderC] from rfl] at hr
          have hr3 : r = fxFolderA ∨ r = fxFolderB ∨ r = fxFolderC := by
            simpa using hr
          rcases hr3 with rfl | rfl | rfl
          · exact absurd (show (none : Option Nat) = some x from hp)
              (by simp)
          · exact ⟨(Option.some.inj (show some 1 = some x from hp)).symm,
              hi ▸ rfl⟩
          · exact absurd (show (none : Option Nat) = some x from hp)
              (by simp)
        intro x hx
        obtain ⟨c, hxc, hcx⟩ := Relation.TransGen.head'_iff.mp hx
        obtain ⟨hx1, hc2⟩ := hstep x c hxc
        subst hx1
        subst hc2
        rcases hcx.cases_head with heq | ⟨d, hcd, -⟩
        · exact absurd heq (by decide)
        · exact absurd (hstep 2 d hcd).1 (by decide)
    obtain ⟨K, hKle, hKempty, hrun, hmem, hnodup⟩ :=
      (bfs_forest_terminates_cycle_diverges fxDb3 "u").1 hforest
    refine ⟨accRows fxDb3 "u" K, hrun 5 (by decide), hnodup, ?_⟩
    exact (hmem fxFolderA).mpr ⟨by decide, Dequeued.root⟩
  · exact (bfs_forest_terminates_cycle_diverges fxDbCycle "u").2 1
      (Dequeued.child none ⟨1, "u", "A", none⟩ Dequeued.root (by decide))
      (Relation.TransGen.single ⟨⟨1, "u", "A2", some 1⟩, by decide, rfl, rfl⟩)
      37

/-- Helper: containment in a node list is containment in one of its
nodes. -/
theorem nodes_contain_iff (r : FolderRow) :
    ∀ l : List FolderNode,
      nodes_contain r l = true ↔ ∃ n ∈ l, node_contains r n = true := by
  intro l
  induction l with
  | nil => simp [nodes_contain]
  | cons n l ih =>
    simp [nodes_contain, Bool.or_eq_true, ih]

/-- Helper: every folder inside a rebuilt node is the node's own folder or
a member of the flat list the node was built from. -/
theorem build_node_contains (A : List FolderRow) (F : List FileRow)
    (g : FolderRow) :
    ∀ (fuel : Nat) (f : FolderRow),
      node_contains g (build_node A F fuel f) = true → g = f ∨ g ∈ A := by
  intro fuel
  induction fuel with
  | zero =>
    intro f h
    simp [build_node, node_contains, nodes_contain] at h
    exact Or.inl h.symm
  | succ fuel ih =>
    intro f h
    simp only [build_node, node_contains, Bool.or_eq_true] at h
    rcases h with hfg | hsub
    · exact Or.inl (beq_iff_eq.mp hfg).symm
    · obtain ⟨nd, hnd, hcont⟩ := (nodes_contain_iff g _).mp hsub
      obtain ⟨c, hc, rfl⟩ := List.mem_map.mp hnd
      have hcA : c ∈ A := (List.mem_filter.mp hc).1
      rcases ih c hcont with rfl | hgA
      · exact Or.inr hcA
      · exact Or.inr hgA

/-- Helper: every folder occurring in the assembled tree is a member of
the flat folder list. -/
theorem tree_contains_mem (A : List FolderRow) (F : List FileRow)
    (g : FolderRow)
    (h : tree_contains (assemble_tree A F) g = true) : g ∈ A := by
  unfold tree_contains assemble_tree at h
  obtain ⟨nd, hnd, hcont⟩ := (nodes_contain_iff g _).mp h
  obtain ⟨c, hc, rfl⟩ := List.mem_map.mp hnd
  have hcA : c ∈ A := (List.mem_filter.mp hc).1
  rcases build_node_contains A F g _ c hcont with rfl | hgA
  · exact hcA
  · exact hgA

/-- Helper: a some-wrapped marker is dequeued only on behalf of a reachable
row carrying that id. -/
theorem dequeued_some_elim (db : MetaDB) (u : String) {y : Nat}
    (h : Dequeued db u (some y)) :
    ∃ f, ReachableRow db u f ∧ f.id = y := by
  cases h with
  | child q r hq hr =>
    obtain ⟨hru, hpq⟩ := mem_get_folders.mp hr
    exact ⟨r, ⟨hru, hpq ▸ hq⟩, rfl⟩

/-- Helper: one child step cannot leave an undequeued marker, given
distinct ids. -/
theorem step_blocks (db : MetaDB) (u : String) (hnd : (idsOf db u).Nodup)
    {z y : Nat} (hz : ¬ Dequeued db u (some z)) (hstep : stepRel db u z y) :
    ¬ Dequeued db u (some y) := by
  intro hd
  obtain ⟨f, hfreach, hfid⟩ := dequeued_some_elim db u hd
  obtain ⟨row, hrow, hpz, hidy⟩ := hstep
  have hfr : f = row :=
    unique_row db u hnd hfreach.1 hrow (by rw [hfid, hidy])
  apply hz
  have h2 := hfreach.2
  rw [hfr, hpz] at h2
  exact h2

/-- Helper: no descendant of an undequeued folder id is ever dequeued,
given distinct ids. -/
theorem descendant_not_dequeued (db : MetaDB) (u : String)
    (hnd : (idsOf db u).Nodup) {x0 : Nat}
    (hroot : ¬ Dequeued db u (some x0)) :
    ∀ y, Relation.TransGen (stepRel db u) x0 y →
      ¬ Dequeued db u (some y) := by
  intro y hy
  induction hy with
  | single hstep => exact step_blocks db u hnd hroot hstep
  | tail _ hstep ih => exact step_blocks db u hnd ih hstep

/-- C10.  A folder whose parent_id points at no folder reachable from the
root (a dangling or cross-owner link) is silently absent from the finished
flat recursive listing and from the assembled tree, together with all of
its descendants — and no error is reported: with distinct row ids the
traversal still finishes and the tree is still produced. -/
theorem orphaned_folder_silently_absent (db : MetaDB) (u : String)
    (hnd : (idsOf db u).Nodup) (r : FolderRow)
    (hr : r ∈ userFolders db u) (p : Nat) (hp : r.parent_id = some p)
    (hnoref : ∀ f, ReachableRow db u f → f.id ≠ p) :
    ∃ K, levelQ db u K = [] ∧
      (∀ fuel, (userFolders db u).length + 2 ≤ fuel →
        Service.get_all_folders_recursive db u fuel = some (accRows db u K) ∧
        Service.get_filesystem_tree db u fuel =
          some (assemble_tree (accRows db u K) (Store.get_files db u none))) ∧
      (r ∉ accRows db u K ∧
        tree_contains (assemble_tree (accRows db u K)
          (Store.get_files db u none)) r = false) ∧
      (∀ d, d ∈ userFolders db u →
        Relation.TransGen (stepRel db u) r.id d.id →
        d ∉ accRows db u K ∧
          tree_contains (assemble_tree (accRows db u K)
            (Store.get_files db u none)) d = false) := by
  obtain ⟨K, hKle, hKempty⟩ := exists_levelQ_empty db u hnd
  have hrun : ∀ fuel, (userFolders db u).length + 2 ≤ fuel →
      Service.get_all_folders_recursive db u fuel =
        some (accRows db u K) := by
    intro fuel hf
    unfold Service.get_all_folders_recursive
    apply bfs_run_stable db u hKempty
    have := allQ_length_le db u hnd K
    omega
  have hnotreach : ¬ ReachableRow db u r := by
    rintro ⟨-, hdq⟩
    rw [hp] at hdq
    obtain ⟨f, hfreach, hfid⟩ := dequeued_some_elim db u hdq
    exact hnoref f hfreach hfid
  have hrnot : r ∉ accRows db u K := fun hmem =>
    hnotreach ((mem_accRows_iff db u hKempty).mp hmem)
  have htreeR : tree_contains (assemble_tree (accRows db u K)
      (Store.get_files db u none)) r = false := by
    by_contra htr
    rw [Bool.not_eq_false] at htr
    exact hrnot (tree_contains_mem _ _ _ htr)
  have hrootdq : ¬ Dequeued db u (some r.id) := by
    intro hdq
    obtain ⟨f, hfreach, hfid⟩ := dequeued_some_elim db u hdq
    have hfr : f = r := unique_row db u hnd hfreach.1 hr hfid
    exact hnotreach (hfr ▸ hfreach)
  refine ⟨K, hKempty, ?_, ⟨hrnot, htreeR⟩, ?_⟩
  · intro fuel hf
    refine ⟨hrun fuel hf, ?_⟩
    unfold Service.get_filesystem_tree
    rw [hrun fuel hf]
  · intro d hd htg
    have hddq : ¬ Dequeued db u (some d.id) :=
      descendant_not_dequeued db u hnd hrootdq d.id htg
    have hdnot : d ∉ accRows db u K := by
      intro hmem
      obtain ⟨hdu, hdq⟩ := (mem_accRows_iff db u hKempty).mp hmem
      exact hddq
        (Dequeued.child d.parent_id d hdq (mem_get_folders.mpr ⟨hdu, rfl⟩))
    refine ⟨hdnot, ?_⟩
    by_contra htr
    rw [Bool.not_eq_false] at htr
    exact hdnot (tree_contains_mem _ _ _ htr)

/-- C10 witness: on the store with root folder A, orphaned folder X
(parent 99 does not exist) and X's child Y, the traversal and the tree both
succeed while omitting X and Y. -/
theorem orphaned_folder_silently_absent_witness :
    ∃ L, Service.get_all_folders_recursive fxDb10 "u" 5 = some L ∧
      fxOrphan ∉ L ∧ fxOrphanChild ∉ L ∧
      ∃ T, Service.get_filesystem_tree fxDb10 "u" 5 = some T ∧
        tree_contains T fxOrphan = false ∧
        tree_contains T fxOrphanChild = false := by
  have hnoref : ∀ f, ReachableRow fxDb10 "u" f → f.id ≠ 99 := by
    rintro f ⟨hf, -⟩ hfid
    rw [show userFolders fxDb10 "u" =
      [fxFolderA, fxOrphan, fxOrphanChild] from rfl] at hf
    have hf3 : f = fxFolderA ∨ f = fxOrphan ∨ f = fxOrphanChild := by
      simpa using hf
    rcases hf3 with rfl | rfl | rfl <;> revert hfid <;> decide
  obtain ⟨K, hKempty, hrun, ⟨hrnot, htr⟩, hdesc⟩ :=
    orphaned_folder_silently_absent fxDb10 "u" (by decide) fxOrphan
      (by decide) 99 rfl hnoref
  obtain ⟨h5run, h5tree⟩ := hrun 5 (by decide)
  have hdc := hdesc fxOrphanChild (by decide)
    (Relation.TransGen.single ⟨fxOrphanChild, by decide, rfl, rfl⟩)
  exact ⟨accRows fxDb10 "u" K, h5run, hrnot, hdc.1,
    assemble_tree (accRows fxDb10 "u" K) (Store.get_files fxDb10 "u" none),
    h5tree, htr, hdc.2⟩

/-- C9 amended witness: "a.txt" is rejected with no write; "a.TEX" passes
the extension check. -/
theorem upload_tex_extension_check_amended_witness :
    Storage.upload_file [] "a.txt" [] "u" none =
      (.error (.storageError "Invalid file type"
          [("error", "Only .tex files are allowed")]), ([] : Bucket)) ∧
    file_extension "a.TEX" = ".tex" := by
  constructor
  · exact (upload_tex_extension_check_amended [] "a.txt" [] "u" none).1
      (by decide)
  · exact (upload_tex_extension_check_amended [] "a.TEX" [] "u" none).2
      'X' 'E' 'T' ['a'] (by decide) (by decide) (by decide) (by decide)
      ⟨'a', by decide, by decide⟩

end TailorIt
